import Mathlib

/-
Verification of the meal-planner core (src/src/lib.rs, src/src/main.rs)
against its natural-language specification.

Modelling conventions, used throughout:
* Rust f64 quantities are modelled as rationals; every constant of the
  source (fraction table entries, parsed decimals) is taken at the exact
  value its source text denotes.  FP rounding of nondyadic constants is
  not modelled; no claim below depends on it.
* Rust i64 values are modelled as Int (no claim exercises wrap-around).
* The SQLite store is modelled as an in-memory record of its tables.
* Rust String is modelled as Lean String, operating on its character list.
-/

namespace MealPlanner

/-- Model of Rust char.is_whitespace, restricted to the ASCII whitespace
characters that can occur in the quantity feed. -/
def wsChar (c : Char) : Bool :=
  decide (c.toNat = 32) || decide (c.toNat = 9) || decide (c.toNat = 10) || decide (c.toNat = 13)

/-- Model of char.is_ascii_digit, by code point. -/
def isDigitC (c : Char) : Bool :=
  decide (48 ≤ c.toNat) && decide (c.toNat ≤ 57)

/-- Model of char.is_ascii, by code point. -/
def isAsciiC (c : Char) : Bool :=
  decide (c.toNat ≤ 127)

/-- Model of str.is_ascii: every character is ASCII. -/
def isAsciiL (l : List Char) : Bool :=
  l.all isAsciiC

/-- Accumulator version of whitespace splitting (model of
str.split_whitespace): acc holds the current word reversed. -/
def splitWsAux : List Char → List Char → List (List Char)
  | [], acc => if acc.isEmpty then [] else [acc.reverse]
  | c :: t, acc =>
    if wsChar c then
      if acc.isEmpty then splitWsAux t [] else acc.reverse :: splitWsAux t []
    else
      splitWsAux t (c :: acc)

/-- Model of str.split_whitespace as a list of nonempty words. -/
def splitWs (l : List Char) : List (List Char) :=
  splitWsAux l []

/-- Value of a digit string read in base 10. -/
def digitsToNat (l : List Char) : Nat :=
  l.foldl (fun a c => a * 10 + (c.toNat - 48)) 0

/-- Model of the unsigned part of Rust f64 parsing (str.parse), restricted
to finite decimal literals: digits with an optional dot and fraction
digits, at least one digit overall.  The exponent, inf and nan forms of
the Rust float grammar are not modelled; no claim exercises them. -/
def parseUnsigned (l : List Char) : Option ℚ :=
  match l.dropWhile isDigitC with
  | [] => if (l.takeWhile isDigitC).isEmpty then none else some (digitsToNat (l.takeWhile isDigitC))
  | '.' :: frac =>
    if frac.all isDigitC && !((l.takeWhile isDigitC).isEmpty && frac.isEmpty) then
      some ((digitsToNat (l.takeWhile isDigitC) : ℚ) + (digitsToNat frac : ℚ) / (10 ^ frac.length : ℚ))
    else none
  | _ => none

/-- Model of Rust str.parse into f64 (same restriction as parseUnsigned),
with an optional leading sign. -/
def parseDecimal (l : List Char) : Option ℚ :=
  match l with
  | '+' :: t => parseUnsigned t
  | '-' :: t => (parseUnsigned t).map (fun q => -q)
  | _ => parseUnsigned l

/-- The NUMERIC fraction-glyph table of utils (phf_map), each glyph with
the exact value its source text denotes. -/
def NUMERIC : List (Char × ℚ) :=
  [('¼', 1/4), ('½', 1/2), ('¾', 3/4),
   ('⅐', 1/7), ('⅑', 1/9), ('⅒', 1/10),
   ('⅓', 1/3), ('⅔', 2/3),
   ('⅕', 1/5), ('⅖', 2/5), ('⅗', 3/5), ('⅘', 4/5),
   ('⅙', 1/6), ('⅚', 5/6),
   ('⅛', 1/8), ('⅜', 3/8), ('⅝', 5/8), ('⅞', 7/8),
   ('⅟', 1), ('↉', 0)]

/-- Model of utils::numeric: lookup of a glyph in the NUMERIC table. -/
def numeric (c : Char) : Option ℚ :=
  (NUMERIC.find? (fun p => p.1 = c)).map (fun p => p.2)

/-- Outcome of api::models::parse_float.  ok is a successfully
deserialized quantity; parseError is the serde custom decode error
(de::Error::custom); fatal is the explicit panic with its message;
unwrapPanic stands for a panic raised by unwrap on None inside the
mixed-number branch (also used for branches unreachable by construction). -/
inductive ParseResult
  | ok (q : ℚ)
  | parseError (msg : String)
  | fatal (msg : String)
  | unwrapPanic
deriving DecidableEq

/-- True exactly on the explicit-panic outcome. -/
def ParseResult.isFatal : ParseResult → Bool
  | .fatal _ => true
  | _ => false

/-- Model of api::models::parse_float: ASCII decimal tokens are returned
as parsed; two whitespace-separated parts are a mixed number (decimal
whole part plus the first character of the second part looked up as a
fraction glyph); a single part falls back to a glyph lookup of the first
character of the string, failing with the serde error Not a fraction;
every other shape panics with BIG PROBLEM and the offending text. -/
def parse_float (s : String) : ParseResult :=
  if isAsciiL s.data && (parseDecimal s.data).isSome then
    match parseDecimal s.data with
    | some q => ParseResult.ok q
    | none => ParseResult.unwrapPanic
  else if 1 < (splitWs s.data).length ∧ (splitWs s.data).length < 3 then
    match splitWs s.data with
    | [p1, p2] =>
      match parseDecimal p1 with
      | none => ParseResult.unwrapPanic
      | some w =>
        match p2.head? with
        | none => ParseResult.unwrapPanic
        | some g =>
          match numeric g with
          | some v => ParseResult.ok (w + v)
          | none => ParseResult.unwrapPanic
    | _ => ParseResult.unwrapPanic
  else if (splitWs s.data).length = 1 then
    match s.data.head? with
    | none => ParseResult.unwrapPanic
    | some c =>
      match numeric c with
      | some v => ParseResult.ok v
      | none => ParseResult.parseError "Not a fraction"
  else ParseResult.fatal ("BIG PROBLEM: " ++ s)

/-- Model of api::models::Unit. -/
structure Unit where
  name : String
  abbreviation : String
deriving DecidableEq

/-- Model of api::models::Measurement (quantity deserialized by parse_float). -/
structure Measurement where
  id : Int
  quantity : ℚ
  unit : Unit
deriving DecidableEq

/-- Model of api::models::Ingredient. -/
structure Ingredient where
  id : Int
  display_singular : String
deriving DecidableEq

/-- Model of api::models::Component. -/
structure Component where
  ingredient : Ingredient
  measurements : List Measurement
deriving DecidableEq

/-- Model of api::models::Section. -/
structure Section where
  components : List Component
deriving DecidableEq

/-- Model of api::models::Tag (the API side tag: id only). -/
structure Tag where
  id : Int
deriving DecidableEq

/-- Model of api::models::Recipe. -/
structure Recipe where
  name : String
  id : Int
  slug : String
  sections : List Section
  tags : List Tag
deriving DecidableEq

/-- Model of api::models::IncompatibleComponentError. -/
inductive IncompatibleComponentError
  | mk
deriving DecidableEq

/-- Model of impl Add for Component: error when the ingredient ids differ,
otherwise the nested loop over both measurement lists pushing, for every
pair with equal unit names, one measurement with summed quantity keeping
the id and unit of the left operand. -/
def componentAdd (a rhs : Component) : Except IncompatibleComponentError Component :=
  if a.ingredient.id ≠ rhs.ingredient.id then
    Except.error IncompatibleComponentError.mk
  else
    Except.ok
      { ingredient := a.ingredient
        measurements := a.measurements.foldl (fun acc m =>
          rhs.measurements.foldl (fun acc2 rm =>
            if m.unit.name ≠ rm.unit.name then acc2
            else acc2 ++ [{ id := m.id, quantity := m.quantity + rm.quantity, unit := m.unit }]) acc) [] }

/-- Model of the inner search of the first loop of api::make_shopping_list:
walk combined_components, skip entries with a different ingredient id, and
replace the first entry with the same id by its merge with the incoming
component, stopping there (the break in the source). -/
def insertComponent : List Component → Component → Except IncompatibleComponentError (List Component)
  | [], _ => Except.ok []
  | c0 :: rest, c =>
    if c.ingredient.id ≠ c0.ingredient.id then
      match insertComponent rest c with
      | Except.error e => Except.error e
      | Except.ok r => Except.ok (c0 :: r)
    else
      match componentAdd c0 c with
      | Except.error e => Except.error e
      | Except.ok m => Except.ok (m :: rest)

/-- Model of the first loop of api::make_shopping_list: combined holds the
consolidated components so far, ids the ingredient ids already pushed. -/
def combineAux : List Component → List Component → List Int → Except IncompatibleComponentError (List Component)
  | [], combined, _ => Except.ok combined
  | c :: rest, combined, ids =>
    if c.ingredient.id ∈ ids then
      match insertComponent combined c with
      | Except.error e => Except.error e
      | Except.ok combined2 => combineAux rest combined2 ids
    else
      combineAux rest (combined ++ [c]) (ids ++ [c.ingredient.id])

/-- Consolidation phase of api::make_shopping_list, starting from empty
accumulators as in the source. -/
def combineComponents (components : List Component) : Except IncompatibleComponentError (List Component) :=
  combineAux components [] []

/-- Model of the i64 cast of f64 in Rust: truncation toward zero. -/
def truncQ (q : ℚ) : Int :=
  if 0 ≤ q then Int.floor q else Int.ceil q

/-- Model of f64::fract: the value minus its truncation toward zero. -/
def fractQ (q : ℚ) : ℚ :=
  q - truncQ q

/-- Rounding to the nearest integer, halves up.  Models the rounding of
the Rust fixed-precision formatter; on every quantity whose hundredths
are exact (all quantities exercised here) the two agree. -/
def roundHalfUp (q : ℚ) : Int :=
  Int.floor (q + 1/2)

/-- Two digit zero padding for the fractional part. -/
def pad2 (n : Nat) : String :=
  if n < 10 then "0" ++ toString n else toString n

/-- Model of the Rust format specifier with two decimal places. -/
def formatTwoDec (q : ℚ) : String :=
  (if roundHalfUp (q * 100) < 0 then "-" else "")
    ++ toString ((roundHalfUp (q * 100)).natAbs / 100)
    ++ "." ++ pad2 ((roundHalfUp (q * 100)).natAbs % 100)

/-- Quantity rendering of api::make_shopping_list: an integer when the
fractional part is exactly zero, else fixed two decimals. -/
def quantityStr (q : ℚ) : String :=
  if fractQ q = 0 then toString (truncQ q) else formatTwoDec q

/-- One line of the second loop of api::make_shopping_list: the display
name alone when there is no measurement or all quantities are zero,
otherwise the first measurement formatted as name, quantity and the unit
abbreviation. -/
def componentLine (c : Component) : String :=
  if c.measurements.length == 0 || c.measurements.all (fun m => decide (m.quantity = 0)) then
    c.ingredient.display_singular
  else
    match c.measurements with
    | [] => c.ingredient.display_singular
    | m :: _ => c.ingredient.display_singular ++ ": " ++ quantityStr m.quantity ++ " " ++ m.unit.abbreviation

/-- The second loop of api::make_shopping_list, pushing one line per
consolidated component. -/
def shoppingLines (combined : List Component) : List String :=
  combined.foldl (fun acc c => acc ++ [componentLine c]) []

/-- Model of api::make_shopping_list: consolidate, render, join with a
single newline. -/
def make_shopping_list (components : List Component) : Except IncompatibleComponentError String :=
  match combineComponents components with
  | Except.error e => Except.error e
  | Except.ok combined => Except.ok (String.intercalate "\n" (shoppingLines combined))

/-- Model of api::get_components: flatten recipes into components, recipe
order then section order then component order. -/
def get_components (recipes : List Recipe) : List Component :=
  recipes.foldl (fun acc r => r.sections.foldl (fun acc2 sec => acc2 ++ sec.components) acc) []

/-- In-memory model of the tags table: pairs of tag id and likes. -/
abbrev ScoreTable := List (Int × Int)

/-- Likes of a tag id in the table.  A tag id that is absent yields 0,
modelling that database::store_tag creates every unseen tag with likes 0
before any relationship row can reference it. -/
def lookupLikes (tbl : ScoreTable) (tagId : Int) : Int :=
  match tbl.find? (fun p => p.1 == tagId) with
  | some p => p.2
  | none => 0

/-- Model of database::models::Tag, a persisted tag row. -/
structure DbTag where
  id : Int
  likes : Int
deriving DecidableEq

/-- Model of utils::models::Mode. -/
inductive Mode
  | Prepare
  | Review
deriving DecidableEq

/-- In-memory model of the SQLite store: the data row (mode, offset) and
the recipes, previous_recipes, tags and recipe_tags tables, each as the
list of its rows in insertion order. -/
structure Db where
  mode : Mode
  offset : Int
  recipes : List (Int × String)
  previousRecipes : List Int
  tags : ScoreTable
  recipeTags : List (Int × Int)
deriving DecidableEq

/-- Model of sqlx::Error as far as the embedded queries can produce it:
the row-not-found failure of fetch_one. -/
inductive SqlxError
  | rowNotFound
deriving DecidableEq

/-- Model of database::get_tag_by_id: fetch_one on the tags table by tag
id, failing when no such row exists. -/
def get_tag_by_id (tagId : Int) (db : Db) : Except SqlxError DbTag :=
  match db.tags.find? (fun p => p.1 == tagId) with
  | some p => Except.ok { id := p.1, likes := p.2 }
  | none => Except.error SqlxError.rowNotFound

/-- The fan-out of database::get_recipe_tags: fetch every tag row by id;
join_all then collect keeps the rows in order and returns the first
error. -/
def fetchTags (db : Db) : List Int → Except SqlxError (List DbTag)
  | [] => Except.ok []
  | tagId :: rest =>
    match get_tag_by_id tagId db with
    | Except.error e => Except.error e
    | Except.ok t =>
      match fetchTags db rest with
      | Except.error e => Except.error e
      | Except.ok ts => Except.ok (t :: ts)

/-- Model of database::get_recipe_tags: the tag ids related to the given
recipe id in the recipe_tags relation, each row then fetched from the
tags table.  A recipe id with no relation rows yields the empty list. -/
def get_recipe_tags (recipeId : Int) (db : Db) : Except SqlxError (List DbTag) :=
  fetchTags db ((db.recipeTags.filter (fun rt => rt.1 == recipeId)).map (fun rt => rt.2))

/-- The scoring loop of utils::get_matching_recipes: each recipe paired
with the sum of the likes of the tags that the store relates to its id,
failing at the first failing lookup as the question-mark operator does. -/
def computeScores (db : Db) : List Recipe → Except SqlxError (List (Recipe × Int))
  | [] => Except.ok []
  | r :: rest =>
    match get_recipe_tags r.id db with
    | Except.error e => Except.error e
    | Except.ok ts =>
      match computeScores db rest with
      | Except.error e => Except.error e
      | Except.ok scores => Except.ok ((r, ts.foldl (fun acc t => acc + t.likes) 0) :: scores)

/-- Comparison used by the sort of utils::get_matching_recipes: ascending
by score. -/
def scoreLE (a b : Recipe × Int) : Prop :=
  a.2 ≤ b.2

instance : DecidableRel scoreLE :=
  fun a b => inferInstanceAs (Decidable (a.2 ≤ b.2))

instance : IsTotal (Recipe × Int) scoreLE :=
  ⟨fun a b => Int.le_total a.2 b.2⟩

instance : IsTrans (Recipe × Int) scoreLE :=
  ⟨fun _ _ _ h h2 => le_trans h h2⟩

/-- Model of utils::get_matching_recipes: score against the store, sort
ascending with a stable sort (Rust sort_by is stable, modelled by
insertion sort, which is stable for the same total preorder), project
the recipes, reverse, take the requested count. -/
def get_matching_recipes (db : Db) (recipes : List Recipe) (n_recipes : Nat) : Except SqlxError (List Recipe) :=
  match computeScores db recipes with
  | Except.error e => Except.error e
  | Except.ok scores =>
    Except.ok ((((List.insertionSort scoreLE scores).map Prod.fst).reverse).take n_recipes)

/-- Model of database::recipe_exists. -/
def recipe_exists (db : Db) (recipeId : Int) : Bool :=
  db.recipes.any (fun p => p.1 == recipeId)

/-- Model of utils::remove_duplicate_recipes: keep the recipes whose id is
not yet in the recipes table. -/
def remove_duplicate_recipes (db : Db) (recipes : List Recipe) : List Recipe :=
  recipes.filter (fun r => !(recipe_exists db r.id))

/-- Model of database::store_tag: insert-or-ignore with likes 0. -/
def store_tag (tagId : Int) (db : Db) : Db :=
  if db.tags.any (fun p => p.1 == tagId) then db
  else { db with tags := db.tags ++ [(tagId, 0)] }

/-- Model of database::store_recipe_tag_relationship. -/
def store_recipe_tag_relationship (recipeId tagId : Int) (db : Db) : Db :=
  let db2 := store_tag tagId db
  { db2 with recipeTags := db2.recipeTags ++ [(recipeId, tagId)] }

/-- Model of database::store_recipe: insert-or-ignore the recipe row, then
store each tag relationship. -/
def store_recipe (r : Recipe) (db : Db) : Db :=
  let db2 := if db.recipes.any (fun p => p.1 == r.id) then db
             else { db with recipes := db.recipes ++ [(r.id, r.name)] }
  r.tags.foldl (fun d t => store_recipe_tag_relationship r.id t.id d) db2

/-- Model of database::store_previous_recipe. -/
def store_previous_recipe (r : Recipe) (db : Db) : Db :=
  { db with previousRecipes := db.previousRecipes ++ [r.id] }

/-- Model of database::increment_offset: offset = offset + n.  The count
is a Nat: the operator entered recipe count of the claims is a genuine
count (the Rust cast of a negative i64 to usize is not exercised). -/
def increment_offset (n : Nat) (db : Db) : Db :=
  { db with offset := db.offset + n }

/-- Model of database::set_mode. -/
def set_mode (m : Mode) (db : Db) : Db :=
  { db with mode := m }

/-- Model of main::PrepareError, restricted to the failure kinds the
embedded steps can produce: the sql error of the selection queries and
the incompatible component error of consolidation. -/
inductive PrepareError
  | sqlError (e : SqlxError)
  | cmpError (e : IncompatibleComponentError)
deriving DecidableEq

/-- Model of the Gather phase (main::prepare) on the persisted state, with
the fetched catalog page injected: dedup against the recipes table, score
and select against the store, build the shopping list artifact, store the
selected recipes into recipes and previous_recipes, advance offset by the
requested count and switch the mode to Review.  A failing step aborts the
phase.  External I/O (file writes, opening the viewer) carries no state
and is dropped. -/
def prepare (db : Db) (fetched : List Recipe) (n_recipes : Nat) : Except PrepareError (Db × String) :=
  match get_matching_recipes db (remove_duplicate_recipes db fetched) n_recipes with
  | Except.error e => Except.error (PrepareError.sqlError e)
  | Except.ok recipes =>
    match make_shopping_list (get_components recipes) with
    | Except.error e => Except.error (PrepareError.cmpError e)
    | Except.ok shopping_list =>
      Except.ok
        (set_mode Mode.Review (increment_offset n_recipes
          (recipes.foldl (fun d r => store_previous_recipe r (store_recipe r d)) db)),
         shopping_list)

/-- Written from the words of the specification: the selection score of a
recipe is the sum over its Tags of the persisted likes, an unseen tag
contributing 0.  Stated for comparison against what the code computes. -/
def recipeScoreSpec (tbl : ScoreTable) (r : Recipe) : Int :=
  (r.tags.map (fun t => lookupLikes tbl t.id)).sum

/-- The score the store determines for a recipe id: the likes of every
tag the recipe_tags relation attaches to it, summed.  lookupLikes
defaults a dangling tag id to 0 where get_tag_by_id would fail, so
whenever the scoring queries succeed the two agree (proved below). -/
def dbScore (db : Db) (recipeId : Int) : Int :=
  ((db.recipeTags.filter (fun rt => rt.1 == recipeId)).map (fun rt => lookupLikes db.tags rt.2)).sum

/-- The pure sort-reverse-take at the heart of utils::get_matching_recipes,
abstracted over the per-recipe score.  On success of the scoring queries
get_matching_recipes returns exactly this (proved below). -/
def selectTop (f : Recipe → Int) (rs : List Recipe) (n : Nat) : List Recipe :=
  (((List.insertionSort scoreLE (rs.map (fun r => (r, f r)))).map Prod.fst).reverse).take n

/-- Written from the words of the specification: for every measurement
pair with equal unit names, one output measurement with the quantities
summed and id and unit taken from the left operand; pairs with differing
unit names contribute nothing. -/
def pairMerged (a b : List Measurement) : List Measurement :=
  a.flatMap (fun m => (b.filter (fun rm => m.unit.name == rm.unit.name)).map
    (fun rm => { id := m.id, quantity := m.quantity + rm.quantity, unit := m.unit }))

/-- Written from the words of the specification: a component with no
measurements, or all measurements of zero quantity, renders as the bare
display name; otherwise the first measurement renders as name, quantity
and abbreviation. -/
def renderLineSpec (c : Component) : String :=
  if c.measurements = [] ∨ ∀ m ∈ c.measurements, m.quantity = 0 then
    c.ingredient.display_singular
  else
    match c.measurements with
    | [] => c.ingredient.display_singular
    | m :: _ => c.ingredient.display_singular ++ ": " ++ quantityStr m.quantity ++ " " ++ m.unit.abbreviation

/-- First occurrences of ingredients by ingredient id, given the set of
ids already seen.  Written from the words of the specification to state
the consolidation order. -/
def firstIngAux (seen : List Int) : List Ingredient → List Ingredient
  | [] => []
  | i :: t => if i.id ∈ seen then firstIngAux seen t else i :: firstIngAux (seen ++ [i.id]) t

/-- First occurrence of each ingredient id in order of appearance. -/
def firstIngredients (l : List Ingredient) : List Ingredient :=
  firstIngAux [] l

theorem digitC_not_ws {c : Char} (h : isDigitC c = true) : wsChar c = false := by
  simp only [isDigitC, Bool.and_eq_true, decide_eq_true_eq] at h
  simp only [wsChar, Bool.or_eq_false_iff, decide_eq_false_iff_not]
  omega

theorem digitC_ascii {c : Char} (h : isDigitC c = true) : isAsciiC c = true := by
  simp only [isDigitC, Bool.and_eq_true, decide_eq_true_eq] at h
  simp only [isAsciiC, decide_eq_true_eq]
  omega

theorem parseUnsigned_chars {l : List Char} {q : ℚ} (h : parseUnsigned l = some q) :
    ∀ c ∈ l, isDigitC c = true ∨ c = '.' := by
  intro c hc
  have hdec := List.takeWhile_append_dropWhile (p := isDigitC) (l := l)
  rw [← hdec] at hc
  rcases List.mem_append.mp hc with htk | hdp
  · exact Or.inl (List.mem_takeWhile_imp htk)
  · unfold parseUnsigned at h
    split at h
    · rename_i heq
      rw [heq] at hdp
      exact absurd hdp (List.not_mem_nil c)
    · rename_i frac heq
      rw [heq] at hdp
      split at h
      · rename_i hcond
        rcases List.mem_cons.mp hdp with hdot | hfrac
        · exact Or.inr hdot
        · have hall := (Bool.and_eq_true _ _).mp hcond |>.1
          exact Or.inl (List.all_eq_true.mp hall c hfrac)
      · exact absurd h (by simp)
    · exact absurd h (by simp)

theorem parseDecimal_chars {l : List Char} {q : ℚ} (h : parseDecimal l = some q) :
    ∀ c ∈ l, isDigitC c = true ∨ c = '.' ∨ c = '+' ∨ c = '-' := by
  intro c hc
  unfold parseDecimal at h
  split at h
  · rename_i t
    rcases List.mem_cons.mp hc with hp | ht
    · exact Or.inr (Or.inr (Or.inl hp))
    · rcases parseUnsigned_chars h c ht with hd | hdot
      · exact Or.inl hd
      · exact Or.inr (Or.inl hdot)
  · rename_i t
    rcases List.mem_cons.mp hc with hp | ht
    · exact Or.inr (Or.inr (Or.inr hp))
    · rcases Option.map_eq_some'.mp h with ⟨q2, hq2, _⟩
      rcases parseUnsigned_chars hq2 c ht with hd | hdot
      · exact Or.inl hd
      · exact Or.inr (Or.inl hdot)
  · rcases parseUnsigned_chars h c hc with hd | hdot
    · exact Or.inl hd
    · exact Or.inr (Or.inl hdot)

theorem parseDecimal_no_ws {l : List Char} {q : ℚ} (h : parseDecimal l = some q) :
    ∀ c ∈ l, wsChar c = false := by
  intro c hc
  rcases parseDecimal_chars h c hc with hd | hdot | hplus | hminus
  · exact digitC_not_ws hd
  · rw [hdot]; decide
  · rw [hplus]; decide
  · rw [hminus]; decide

theorem parseDecimal_ascii {l : List Char} {q : ℚ} (h : parseDecimal l = some q) :
    isAsciiL l = true := by
  apply List.all_eq_true.mpr
  intro c hc
  rcases parseDecimal_chars h c hc with hd | hdot | hplus | hminus
  · exact digitC_ascii hd
  · rw [hdot]; decide
  · rw [hplus]; decide
  · rw [hminus]; decide

theorem splitWsAux_no_ws : ∀ (l acc : List Char), (∀ c ∈ l, wsChar c = false) →
    splitWsAux l acc = if (acc.reverse ++ l).isEmpty then [] else [acc.reverse ++ l]
  | [], acc, _ => by cases acc <;> simp [splitWsAux]
  | c :: t, acc, h => by
    have hc : wsChar c = false := h c (List.mem_cons_self c t)
    have ht : ∀ x ∈ t, wsChar x = false := fun x hx => h x (List.mem_cons_of_mem c hx)
    rw [splitWsAux, hc]
    simp only [Bool.false_eq_true, if_false]
    rw [splitWsAux_no_ws t (c :: acc) ht]
    simp

theorem splitWs_len_le_one {l : List Char} (h : ∀ c ∈ l, wsChar c = false) :
    (splitWs l).length ≤ 1 := by
  unfold splitWs
  rw [splitWsAux_no_ws l [] h]
  split <;> simp

theorem parseDecimal_none_of_two_parts {l : List Char} (h2 : 2 ≤ (splitWs l).length) :
    parseDecimal l = none := by
  cases hp : parseDecimal l with
  | none => rfl
  | some q =>
    have hle := splitWs_len_le_one (fun c hc => parseDecimal_no_ws hp c hc)
    omega

/-- Claim C8: a token parsing as an ordinary decimal number yields that
number as-is; every glyph of the fixed fraction table yields exactly its
tabulated value; and a token of exactly two whitespace-separated parts,
a decimal whole part and a part starting with a fraction glyph, yields
whole plus fraction value. -/
theorem claim_C8_quantity_parser_success :
    (∀ (s : String) (q : ℚ), parseDecimal s.data = some q → parse_float s = ParseResult.ok q)
    ∧ (∀ p ∈ NUMERIC, parse_float (String.mk [p.1]) = ParseResult.ok p.2)
    ∧ (∀ (s : String) (w : List Char) (g : Char) (t : List Char) (q v : ℚ),
        splitWs s.data = [w, g :: t] → parseDecimal w = some q → numeric g = some v →
        parse_float s = ParseResult.ok (q + v)) := by
  refine ⟨?_, ?_, ?_⟩
  · intro s q h
    have hascii : isAsciiL s.data = true := parseDecimal_ascii h
    unfold parse_float
    rw [h, hascii]
    simp
  · exact of_decide_eq_true (by with_unfolding_all rfl)
  · intro s w g t q v hsplit hw hg
    have hlen : (splitWs s.data).length = 2 := by rw [hsplit]; rfl
    have hnone : parseDecimal s.data = none := parseDecimal_none_of_two_parts (by omega)
    unfold parse_float
    rw [hnone, hsplit]
    simp [hw, hg]

/-- Witness for claim C8 at the concrete tokens of the specification. -/
theorem claim_C8_quantity_parser_success_witness :
    parse_float "3" = ParseResult.ok 3
    ∧ parse_float "1 ½" = ParseResult.ok (1 + 1/2)
    ∧ parse_float "½" = ParseResult.ok (1/2) :=
  ⟨claim_C8_quantity_parser_success.1 "3" 3 (by with_unfolding_all rfl),
   claim_C8_quantity_parser_success.2.2 "1 ½" ['1'] '½' [] 1 (1/2)
     (by with_unfolding_all rfl) (by with_unfolding_all rfl) (by with_unfolding_all rfl),
   claim_C8_quantity_parser_success.2.1 ('½', 1/2) (of_decide_eq_true (by with_unfolding_all rfl))⟩

/-- Claim C9 (amended): an input of zero or at least three
whitespace-separated parts panics fatally with the offending text
surfaced verbatim; a single part that is not a decimal number is looked
up as a glyph by its first character and, when unrecognized, fails with
the serde ParseError whose message is Not a fraction and does not
contain the offending text. -/
theorem claim_C9_quantity_parser_failure :
    (∀ s : String, 3 ≤ (splitWs s.data).length → parse_float s = ParseResult.fatal ("BIG PROBLEM: " ++ s))
    ∧ (∀ s : String, splitWs s.data = [] → parse_float s = ParseResult.fatal ("BIG PROBLEM: " ++ s))
    ∧ (∀ (s : String) (c : Char), (splitWs s.data).length = 1 → parseDecimal s.data = none →
        s.data.head? = some c → numeric c = none →
        parse_float s = ParseResult.parseError "Not a fraction") := by
  refine ⟨?_, ?_, ?_⟩
  · intro s h3
    have hnone : parseDecimal s.data = none := parseDecimal_none_of_two_parts (by omega)
    unfold parse_float
    rw [hnone]
    rw [if_neg (by simp)]
    rw [if_neg (by omega)]
    rw [if_neg (by omega)]
  · intro s hnil
    have hnone : parseDecimal s.data = none := by
      cases hp : parseDecimal s.data with
      | none => rfl
      | some q =>
        have hno : ∀ c ∈ s.data, wsChar c = false := fun c hc => parseDecimal_no_ws hp c hc
        have haux := splitWsAux_no_ws s.data [] hno
        rw [splitWs, haux] at hnil
        split at hnil
        · rename_i hempty
          simp only [List.reverse_nil, List.nil_append, List.isEmpty_iff] at hempty
          rw [hempty] at hp
          simp [parseDecimal, parseUnsigned] at hp
        · exact absurd hnil (by simp)
    have hlen : (splitWs s.data).length = 0 := by rw [hnil]; rfl
    unfold parse_float
    rw [hnone]
    rw [if_neg (by simp)]
    rw [if_neg (by omega)]
    rw [if_neg (by omega)]
  · intro s c hlen hnone hhead hnum
    unfold parse_float
    rw [hnone]
    rw [if_neg (by simp)]
    rw [if_neg (by omega)]
    rw [if_pos hlen, hhead]
    simp [hnum]

/-- Witness for claim C9: the three-token input is rejected fatally with
the text surfaced verbatim, and an unparseable single token fails with
the serde ParseError. -/
theorem claim_C9_quantity_parser_failure_witness :
    parse_float "1 2 3" = ParseResult.fatal ("BIG PROBLEM: " ++ "1 2 3")
    ∧ parse_float "abcd" = ParseResult.parseError "Not a fraction" :=
  ⟨claim_C9_quantity_parser_failure.1 "1 2 3" (of_decide_eq_true (by with_unfolding_all rfl)),
   claim_C9_quantity_parser_failure.2.2 "abcd" 'a'
     (of_decide_eq_true (by with_unfolding_all rfl)) (by with_unfolding_all rfl)
     (by with_unfolding_all rfl) (by with_unfolding_all rfl)⟩

/-- Counterexample to claim C9 as stated: the unparseable single token
abc is not met with a fatal input-format error carrying the offending
text; it produces the serde ParseError whose message is Not a fraction,
without the token text. -/
theorem claim_C9_counterexample :
    parse_float "abc" = ParseResult.parseError "Not a fraction"
    ∧ (parse_float "abc").isFatal = false :=
  ⟨by with_unfolding_all rfl, by with_unfolding_all rfl⟩

theorem foldl_unit_merge (m : Measurement) (b acc : List Measurement) :
    b.foldl (fun acc2 rm =>
        if m.unit.name ≠ rm.unit.name then acc2
        else acc2 ++ [{ id := m.id, quantity := m.quantity + rm.quantity, unit := m.unit }]) acc
    = acc ++ (b.filter (fun rm => m.unit.name == rm.unit.name)).map
        (fun rm => { id := m.id, quantity := m.quantity + rm.quantity, unit := m.unit }) := by
  induction b generalizing acc with
  | nil => simp
  | cons rm rest ih =>
    simp only [List.foldl_cons, List.filter_cons]
    by_cases hname : m.unit.name = rm.unit.name
    · rw [if_neg (by simp [hname]), ih]
      simp [hname]
    · rw [if_pos hname, ih]
      simp [hname]

theorem foldl_pair_merged (a b : List Measurement) (acc : List Measurement) :
    a.foldl (fun acc m =>
        b.foldl (fun acc2 rm =>
          if m.unit.name ≠ rm.unit.name then acc2
          else acc2 ++ [{ id := m.id, quantity := m.quantity + rm.quantity, unit := m.unit }]) acc) acc
    = acc ++ pairMerged a b := by
  induction a generalizing acc with
  | nil => simp [pairMerged]
  | cons m rest ih =>
    simp only [List.foldl_cons]
    rw [foldl_unit_merge, ih]
    simp [pairMerged]

theorem componentAdd_eq (a b : Component) (h : a.ingredient.id = b.ingredient.id) :
    componentAdd a b = Except.ok { ingredient := a.ingredient, measurements := pairMerged a.measurements b.measurements } := by
  unfold componentAdd
  rw [if_neg (by simp [h])]
  rw [foldl_pair_merged]
  simp

/-- Claim C4: merging two Components with the same ingredient id yields,
for each measurement pair with equal unit names, one output measurement
whose quantity is the sum and whose id and unit come from the left
operand; pairs whose unit names differ contribute nothing. -/
theorem claim_C4_component_merge (a b : Component) (h : a.ingredient.id = b.ingredient.id) :
    componentAdd a b = Except.ok { ingredient := a.ingredient, measurements := pairMerged a.measurements b.measurements } :=
  componentAdd_eq a b h

/-- Witness for claim C4: one common unit gives a single measurement with
the summed quantity, keeping the id and unit of the left operand. -/
theorem claim_C4_component_merge_witness :
    componentAdd ⟨⟨42, "flour"⟩, [⟨1, 2, ⟨"cup", "cup"⟩⟩]⟩ ⟨⟨42, "flour"⟩, [⟨9, 1/2, ⟨"cup", "cup"⟩⟩]⟩
    = Except.ok ⟨⟨42, "flour"⟩, [⟨1, 2 + 1/2, ⟨"cup", "cup"⟩⟩]⟩ :=
  (claim_C4_component_merge ⟨⟨42, "flour"⟩, [⟨1, 2, ⟨"cup", "cup"⟩⟩]⟩ ⟨⟨42, "flour"⟩, [⟨9, 1/2, ⟨"cup", "cup"⟩⟩]⟩ rfl).trans
    (by with_unfolding_all rfl)

/-- Claim C5: merging two Components fails with IncompatibleComponentError
exactly when the ingredient ids differ, and always succeeds when they are
equal. -/
theorem claim_C5_merge_error_iff (a b : Component) :
    (componentAdd a b = Except.error IncompatibleComponentError.mk ↔ a.ingredient.id ≠ b.ingredient.id)
    ∧ ((∃ c, componentAdd a b = Except.ok c) ↔ a.ingredient.id = b.ingredient.id) := by
  unfold componentAdd
  by_cases h : a.ingredient.id = b.ingredient.id
  · rw [if_neg (by simp [h])]
    simp [h]
  · rw [if_pos h]
    simp [h]

/-- Claim C10: two Components with the same ingredient id but disjoint
unit names merge successfully into a Component with no measurements at
all, which the formatter renders as the bare ingredient display name, so
both stated quantities are absent from the shopping list. -/
theorem claim_C10_disjoint_units_vanish (a b : Component)
    (hid : a.ingredient.id = b.ingredient.id)
    (hdisj : ∀ m ∈ a.measurements, ∀ rm ∈ b.measurements, m.unit.name ≠ rm.unit.name) :
    componentAdd a b = Except.ok { ingredient := a.ingredient, measurements := [] }
    ∧ componentLine { ingredient := a.ingredient, measurements := [] } = a.ingredient.display_singular := by
  have hempty : pairMerged a.measurements b.measurements = [] := by
    unfold pairMerged
    rw [List.flatMap_eq_nil_iff]
    intro m hm
    rw [List.map_eq_nil_iff, List.filter_eq_nil_iff]
    intro rm hrm
    simp only [beq_iff_eq]
    exact hdisj m hm rm hrm
  refine ⟨?_, rfl⟩
  rw [componentAdd_eq a b hid, hempty]

/-- Witness for claim C10: flour stated in cups on one side and grams on
the other merges to no measurements and renders as the bare name. -/
theorem claim_C10_disjoint_units_vanish_witness :
    componentAdd ⟨⟨42, "flour"⟩, [⟨1, 2, ⟨"cup", "cup"⟩⟩]⟩ ⟨⟨42, "flour"⟩, [⟨9, 30, ⟨"gram", "g"⟩⟩]⟩
    = Except.ok ⟨⟨42, "flour"⟩, []⟩
    ∧ componentLine ⟨⟨42, "flour"⟩, []⟩ = "flour" :=
  claim_C10_disjoint_units_vanish ⟨⟨42, "flour"⟩, [⟨1, 2, ⟨"cup", "cup"⟩⟩]⟩ ⟨⟨42, "flour"⟩, [⟨9, 30, ⟨"gram", "g"⟩⟩]⟩
    rfl (of_decide_eq_true (by with_unfolding_all rfl))

theorem insertComponent_ok (combined : List Component) (c : Component) :
    ∃ r, insertComponent combined c = Except.ok r
      ∧ r.map (fun x => x.ingredient) = combined.map (fun x => x.ingredient) := by
  induction combined with
  | nil => exact ⟨[], rfl, rfl⟩
  | cons c0 rest ih =>
    by_cases h : c.ingredient.id = c0.ingredient.id
    · refine ⟨{ ingredient := c0.ingredient, measurements := pairMerged c0.measurements c.measurements } :: rest, ?_, by simp⟩
      simp only [insertComponent]
      rw [if_neg (by simp [h]), componentAdd_eq c0 c h.symm]
    · rcases ih with ⟨r, hr, hmap⟩
      refine ⟨c0 :: r, ?_, by simp [hmap]⟩
      simp only [insertComponent]
      rw [if_pos h, hr]

theorem combineAux_spec : ∀ (rest combined : List Component) (ids : List Int),
    ids = combined.map (fun x => x.ingredient.id) →
    ∃ out, combineAux rest combined ids = Except.ok out
      ∧ out.map (fun x => x.ingredient)
          = combined.map (fun x => x.ingredient) ++ firstIngAux ids (rest.map (fun x => x.ingredient)) := by
  intro rest
  induction rest with
  | nil => intro combined ids _; exact ⟨combined, rfl, by simp [firstIngAux]⟩
  | cons c rest ih =>
    intro combined ids hids
    by_cases hmem : c.ingredient.id ∈ ids
    · rcases insertComponent_ok combined c with ⟨combined2, hok, hmap⟩
      have hids2 : ids = combined2.map (fun x => x.ingredient.id) := by
        have hcongr := congrArg (List.map (fun i : Ingredient => i.id)) hmap
        rw [List.map_map, List.map_map] at hcongr
        rw [hids]
        exact hcongr.symm
      rcases ih combined2 ids hids2 with ⟨out, hout, houtmap⟩
      refine ⟨out, ?_, ?_⟩
      · simp only [combineAux]
        rw [if_pos hmem, hok]
        exact hout
      · rw [houtmap, hmap]
        simp [firstIngAux, hmem]
    · have hids2 : ids ++ [c.ingredient.id] = (combined ++ [c]).map (fun x => x.ingredient.id) := by
        simp [hids]
      rcases ih (combined ++ [c]) (ids ++ [c.ingredient.id]) hids2 with ⟨out, hout, houtmap⟩
      refine ⟨out, ?_, ?_⟩
      · simp only [combineAux]
        rw [if_neg hmem]
        exact hout
      · rw [houtmap]
        simp [firstIngAux, hmem]

theorem firstIngAux_not_seen_nodup : ∀ (l : List Ingredient) (seen : List Int),
    (∀ i ∈ firstIngAux seen l, i.id ∉ seen) ∧ ((firstIngAux seen l).map (fun i => i.id)).Nodup := by
  intro l
  induction l with
  | nil => intro seen; simp [firstIngAux]
  | cons i t ih =>
    intro seen
    by_cases hmem : i.id ∈ seen
    · simpa [firstIngAux, hmem] using ih seen
    · have ihext := ih (seen ++ [i.id])
      constructor
      · intro j hj
        rw [firstIngAux, if_neg hmem] at hj
        rcases List.mem_cons.mp hj with hji | hjt
        · rw [hji]; exact hmem
        · intro hcontra
          exact ihext.1 j hjt (List.mem_append.mpr (Or.inl hcontra))
      · rw [firstIngAux, if_neg hmem]
        rw [List.map_cons, List.nodup_cons]
        constructor
        · intro hcontra
          rcases List.mem_map.mp hcontra with ⟨j, hjt, hjid⟩
          exact ihext.1 j hjt (List.mem_append.mpr (Or.inr (by simp [hjid])))
        · exact ihext.2

/-- Claim C6: the consolidated list has exactly one entry per distinct
ingredient id, entries appearing in the order each ingredient first
occurred in the input, later occurrences merged into the first. -/
theorem claim_C6_consolidation_invariant (components : List Component) :
    ∃ out, combineComponents components = Except.ok out
      ∧ out.map (fun x => x.ingredient) = firstIngredients (components.map (fun x => x.ingredient))
      ∧ (out.map (fun x => x.ingredient.id)).Nodup := by
  rcases combineAux_spec components [] [] rfl with ⟨out, hok, hmap⟩
  simp only [List.map_nil, List.nil_append] at hmap
  refine ⟨out, hok, ?_, ?_⟩
  · rw [hmap]; rfl
  · have hnodup := (firstIngAux_not_seen_nodup (components.map (fun x => x.ingredient)) []).2
    have hids : out.map (fun x => x.ingredient.id)
        = (out.map (fun x => x.ingredient)).map (fun i => i.id) := by
      rw [List.map_map]
      rfl
    rw [hids, hmap]
    exact hnodup

theorem componentLine_eq_spec (c : Component) : componentLine c = renderLineSpec c := by
  unfold componentLine renderLineSpec
  have hcond : ((c.measurements.length == 0) || c.measurements.all fun m => decide (m.quantity = 0)) = true
      ↔ (c.measurements = [] ∨ ∀ m ∈ c.measurements, m.quantity = 0) := by
    simp [List.all_eq_true, List.length_eq_zero]
  by_cases h : c.measurements = [] ∨ ∀ m ∈ c.measurements, m.quantity = 0
  · rw [if_pos (hcond.mpr h), if_pos h]
  · rw [if_neg (fun hb => h (hcond.mp hb)), if_neg h]

theorem foldl_lines (combined : List Component) (acc : List String) :
    combined.foldl (fun acc c => acc ++ [componentLine c]) acc = acc ++ combined.map renderLineSpec := by
  induction combined generalizing acc with
  | nil => simp
  | cons c rest ih =>
    simp only [List.foldl_cons, List.map_cons]
    rw [ih, componentLine_eq_spec]
    simp

theorem shoppingLines_eq_map (combined : List Component) :
    shoppingLines combined = combined.map renderLineSpec := by
  unfold shoppingLines
  rw [foldl_lines]
  simp

/-- Claim C7: the shopping list is the consolidated components rendered
one line each in order, joined by a single newline with no trailing
newline; a component with no measurement or all-zero quantities renders
as the bare name, otherwise the first measurement renders as name,
integer-or-two-decimal quantity and the unit abbreviation. -/
theorem claim_C7_formatter :
    (∀ (cs out : List Component), combineComponents cs = Except.ok out →
        make_shopping_list cs = Except.ok (String.intercalate "\n" (out.map renderLineSpec)))
    ∧ make_shopping_list [⟨⟨42, "flour"⟩, [⟨1, 2, ⟨"cup", "cup"⟩⟩]⟩] = Except.ok "flour: 2 cup"
    ∧ make_shopping_list [⟨⟨42, "flour"⟩, [⟨1, 3/2, ⟨"cup", "cup"⟩⟩]⟩] = Except.ok "flour: 1.50 cup"
    ∧ make_shopping_list [⟨⟨42, "flour"⟩, []⟩] = Except.ok "flour"
    ∧ make_shopping_list [⟨⟨42, "flour"⟩, [⟨1, 2, ⟨"cup", "cup"⟩⟩]⟩, ⟨⟨7, "sugar"⟩, []⟩]
        = Except.ok "flour: 2 cup\nsugar" := by
  refine ⟨?_, ?_, ?_, ?_, ?_⟩
  · intro cs out h
    unfold make_shopping_list
    rw [h]
    simp [shoppingLines_eq_map]
  · with_unfolding_all rfl
  · with_unfolding_all rfl
  · with_unfolding_all rfl
  · with_unfolding_all rfl

/-- Witness for claim C7 on a concrete consolidated list. -/
theorem claim_C7_formatter_witness :
    make_shopping_list [⟨⟨42, "flour"⟩, [⟨1, 2, ⟨"cup", "cup"⟩⟩]⟩, ⟨⟨7, "sugar"⟩, []⟩]
      = Except.ok (String.intercalate "\n"
          ([⟨⟨42, "flour"⟩, [⟨1, 2, ⟨"cup", "cup"⟩⟩]⟩, ⟨⟨7, "sugar"⟩, []⟩].map renderLineSpec)) :=
  claim_C7_formatter.1 _ [⟨⟨42, "flour"⟩, [⟨1, 2, ⟨"cup", "cup"⟩⟩]⟩, ⟨⟨7, "sugar"⟩, []⟩]
    (by with_unfolding_all rfl)

theorem foldl_add_likes (ts : List DbTag) (acc : Int) :
    ts.foldl (fun a t => a + t.likes) acc = acc + (ts.map (fun t => t.likes)).sum := by
  induction ts generalizing acc with
  | nil => simp
  | cons t rest ih =>
    simp only [List.foldl_cons, List.map_cons, List.sum_cons]
    rw [ih]
    ring

theorem fetchTags_likes (db : Db) : ∀ (ids : List Int) (ts : List DbTag),
    fetchTags db ids = Except.ok ts →
    ts.map (fun t => t.likes) = ids.map (fun tagId => lookupLikes db.tags tagId) := by
  intro ids
  induction ids with
  | nil =>
    intro ts h
    simp only [fetchTags] at h
    injection h with h2
    rw [← h2]
    rfl
  | cons tid rest ih =>
    intro ts h
    simp only [fetchTags] at h
    split at h
    · exact absurd h (by simp)
    · rename_i t hget
      split at h
      · exact absurd h (by simp)
      · rename_i ts2 hrest
        injection h with h2
        rw [← h2]
        simp only [List.map_cons]
        have ht : t.likes = lookupLikes db.tags tid := by
          unfold get_tag_by_id at hget
          unfold lookupLikes
          cases hf : db.tags.find? (fun p => p.1 == tid) with
          | none => rw [hf] at hget; exact absurd hget (by simp)
          | some p =>
            rw [hf] at hget
            injection hget with hget2
            rw [← hget2]
        rw [ht, ih ts2 hrest]

theorem computeScores_ok (db : Db) : ∀ (rs : List Recipe) (scores : List (Recipe × Int)),
    computeScores db rs = Except.ok scores →
    scores = rs.map (fun r => (r, dbScore db r.id)) := by
  intro rs
  induction rs with
  | nil =>
    intro scores h
    simp only [computeScores] at h
    injection h with h2
    rw [← h2]
    rfl
  | cons r rest ih =>
    intro scores h
    simp only [computeScores] at h
    split at h
    · exact absurd h (by simp)
    · rename_i ts hts
      split at h
      · exact absurd h (by simp)
      · rename_i scores2 hs2
        injection h with h2
        rw [← h2, List.map_cons, ← ih scores2 hs2]
        have hscore : ts.foldl (fun acc t => acc + t.likes) 0 = dbScore db r.id := by
          unfold get_recipe_tags at hts
          have hlikes := fetchTags_likes db _ ts hts
          rw [foldl_add_likes, hlikes, List.map_map]
          unfold dbScore
          rw [zero_add]
          rfl
        rw [hscore]

theorem get_matching_ok (db : Db) (rs : List Recipe) (n : Nat) (out : List Recipe)
    (h : get_matching_recipes db rs n = Except.ok out) :
    out = selectTop (fun r => dbScore db r.id) rs n := by
  unfold get_matching_recipes at h
  split at h
  · exact absurd h (by simp)
  · rename_i scores hsc
    injection h with h2
    rw [← h2, computeScores_ok db rs scores hsc]
    rfl

/-- Claim C1 evaluated against the code: at a store where tag 5 has
accumulated likes 3 through previously stored recipe 99, a fresh
candidate carrying tag 5 survives dedup and still scores 0, because the
scoring loop reads the recipe_tags relation keyed by the candidate id
and store_recipe populates that relation only after selection; the
claimed score, the summed persisted likes of the candidate Tags, is 3.
The accumulated preference signal therefore never influences selection,
against the stated intent of the specification. -/
theorem claim_C1_scoring_code_bug :
    remove_duplicate_recipes ⟨Mode.Prepare, 3, [(99, "old")], [], [(5, 3)], [(99, 5)]⟩
        [⟨"a", 1, "a", [], [⟨5⟩]⟩]
      = [⟨"a", 1, "a", [], [⟨5⟩]⟩]
    ∧ computeScores ⟨Mode.Prepare, 3, [(99, "old")], [], [(5, 3)], [(99, 5)]⟩
        [⟨"a", 1, "a", [], [⟨5⟩]⟩]
      = Except.ok [(⟨"a", 1, "a", [], [⟨5⟩]⟩, 0)]
    ∧ recipeScoreSpec [(5, 3)] ⟨"a", 1, "a", [], [⟨5⟩]⟩ = 3 :=
  ⟨by with_unfolding_all rfl, by with_unfolding_all rfl, by with_unfolding_all rfl⟩

theorem sort_pair_snd (f : Recipe → Int) (rs : List Recipe) :
    ∀ p ∈ List.insertionSort scoreLE (rs.map (fun r => (r, f r))), p.2 = f p.1 := by
  intro p hp
  have hmem : p ∈ rs.map (fun r => (r, f r)) := by simpa using hp
  rcases List.mem_map.mp hmem with ⟨r, _, hre⟩
  rw [← hre]

theorem selectTop_length (f : Recipe → Int) (rs : List Recipe) (n : Nat) :
    (selectTop f rs n).length = min n rs.length := by
  unfold selectTop
  rw [List.length_take, List.length_reverse, List.length_map,
      (List.perm_insertionSort scoreLE (rs.map (fun r => (r, f r)))).length_eq,
      List.length_map]

theorem selectTop_perm (f : Recipe → Int) (rs : List Recipe) (n : Nat) (hle : rs.length ≤ n) :
    (selectTop f rs n).Perm rs := by
  have hperm := List.perm_insertionSort scoreLE (rs.map (fun r => (r, f r)))
  unfold selectTop
  rw [List.take_of_length_le (by
    rw [List.length_reverse, List.length_map, hperm.length_eq, List.length_map]
    exact hle)]
  have h1 : (((List.insertionSort scoreLE (rs.map (fun r => (r, f r)))).map Prod.fst).reverse).Perm
      ((List.insertionSort scoreLE (rs.map (fun r => (r, f r)))).map Prod.fst) :=
    List.reverse_perm _
  have h2 := hperm.map Prod.fst
  have h3 : (rs.map (fun r => (r, f r))).map Prod.fst = rs := by
    rw [List.map_map]
    exact List.map_id rs
  have h4 : ((rs.map (fun r => (r, f r))).map Prod.fst).Perm rs := by rw [h3]
  exact (h1.trans h2).trans h4

theorem selectTop_sorted (f : Recipe → Int) (rs : List Recipe) (n : Nat) :
    (selectTop f rs n).Pairwise (fun a b => f b ≤ f a) := by
  have hsorted := List.sorted_insertionSort scoreLE (rs.map (fun r => (r, f r)))
  unfold selectTop
  rw [show (((List.insertionSort scoreLE (rs.map (fun r => (r, f r)))).map Prod.fst).reverse).take n
      = (((List.insertionSort scoreLE (rs.map (fun r => (r, f r)))).reverse).take n).map Prod.fst from by
    rw [List.map_take, List.map_reverse]]
  apply List.pairwise_map.mpr
  have hrev : ((List.insertionSort scoreLE (rs.map (fun r => (r, f r)))).reverse).Pairwise
      (fun a b => scoreLE b a) := List.pairwise_reverse.mpr hsorted
  have htake := hrev.sublist (List.take_sublist n _)
  refine List.Pairwise.imp_of_mem ?_ htake
  intro a b ha hb hab
  have ha2 := sort_pair_snd f rs a (List.mem_reverse.mp (List.mem_of_mem_take ha))
  have hb2 := sort_pair_snd f rs b (List.mem_reverse.mp (List.mem_of_mem_take hb))
  rw [← ha2, ← hb2]
  exact hab

theorem selectTop_topN (f : Recipe → Int) (rs : List Recipe) (n : Nat) :
    ∀ x ∈ selectTop f rs n, ∀ y ∈ rs, y ∉ selectTop f rs n → f y ≤ f x := by
  intro x hx y hy hyn
  have hform : selectTop f rs n
      = (((List.insertionSort scoreLE (rs.map (fun r => (r, f r)))).reverse).take n).map Prod.fst := by
    unfold selectTop
    rw [List.map_take, List.map_reverse]
  rw [hform] at hx
  rcases List.mem_map.mp hx with ⟨p, hp, hpx⟩
  have hysort : (y, f y) ∈ List.insertionSort scoreLE (rs.map (fun r => (r, f r))) := by
    have hpair : (y, f y) ∈ rs.map (fun r => (r, f r)) := List.mem_map_of_mem _ hy
    simpa using hpair
  have hyrev : (y, f y) ∈ (List.insertionSort scoreLE (rs.map (fun r => (r, f r)))).reverse :=
    List.mem_reverse.mpr hysort
  rw [← List.take_append_drop n
      ((List.insertionSort scoreLE (rs.map (fun r => (r, f r)))).reverse)] at hyrev
  rcases List.mem_append.mp hyrev with hyt | hyd
  · exact absurd (by rw [hform]; exact List.mem_map_of_mem Prod.fst hyt) hyn
  · have hrevpw : ((List.insertionSort scoreLE (rs.map (fun r => (r, f r)))).reverse).Pairwise
        (fun a b => scoreLE b a) :=
      List.pairwise_reverse.mpr (List.sorted_insertionSort scoreLE (rs.map (fun r => (r, f r))))
    rw [← List.take_append_drop n
        ((List.insertionSort scoreLE (rs.map (fun r => (r, f r)))).reverse)] at hrevpw
    have hsplit := (List.pairwise_append.mp hrevpw).2.2
    have hle : (y, f y).2 ≤ p.2 := hsplit p hp (y, f y) hyd
    have hp2 := sort_pair_snd f rs p (List.mem_reverse.mp (List.mem_of_mem_take hp))
    rw [← hpx, ← hp2]
    exact hle

theorem orderedInsert_filter (a : Recipe × Int) (s : Int) : ∀ l : List (Recipe × Int),
    (List.orderedInsert scoreLE a l).filter (fun p => p.2 == s)
      = if a.2 = s then a :: l.filter (fun p => p.2 == s) else l.filter (fun p => p.2 == s) := by
  intro l
  induction l with
  | nil =>
    simp only [List.orderedInsert]
    by_cases has : a.2 = s
    · rw [if_pos has]
      simp [List.filter, has]
    · rw [if_neg has]
      have hb : (a.2 == s) = false := by simp [has]
      simp [List.filter, hb]
  | cons b l ih =>
    simp only [List.orderedInsert]
    by_cases hab : scoreLE a b
    · rw [if_pos hab]
      by_cases has : a.2 = s
      · rw [if_pos has]
        simp [List.filter_cons, has]
      · rw [if_neg has]
        simp [List.filter_cons, has]
    · rw [if_neg hab]
      have hablt : b.2 < a.2 := not_le.mp hab
      by_cases has : a.2 = s
      · have hbs : (b.2 == s) = false := by
          simp only [beq_eq_false_iff_ne]
          rw [← has]
          exact ne_of_lt hablt
        simp [List.filter_cons, hbs, ih, has]
      · simp only [List.filter_cons, ih, if_neg has]

theorem insertionSort_filter (s : Int) : ∀ l : List (Recipe × Int),
    (List.insertionSort scoreLE l).filter (fun p => p.2 == s) = l.filter (fun p => p.2 == s) := by
  intro l
  induction l with
  | nil => rfl
  | cons a l ih =>
    simp only [List.insertionSort]
    by_cases has : a.2 = s
    · rw [orderedInsert_filter, if_pos has, ih, List.filter_cons]
      simp [has]
    · rw [orderedInsert_filter, if_neg has, ih, List.filter_cons]
      simp [has]

theorem selectTop_ties (f : Recipe → Int) (rs : List Recipe) (n : Nat) (hle : rs.length ≤ n) (s : Int) :
    (selectTop f rs n).filter (fun r => f r == s) = (rs.filter (fun r => f r == s)).reverse := by
  have hperm := List.perm_insertionSort scoreLE (rs.map (fun r => (r, f r)))
  unfold selectTop
  rw [List.take_of_length_le (by
    rw [List.length_reverse, List.length_map, hperm.length_eq, List.length_map]
    exact hle)]
  rw [List.filter_reverse]
  congr 1
  rw [List.filter_map]
  have hcongr : (List.insertionSort scoreLE (rs.map (fun r => (r, f r)))).filter
        ((fun r => f r == s) ∘ Prod.fst)
      = (List.insertionSort scoreLE (rs.map (fun r => (r, f r)))).filter (fun p => p.2 == s) := by
    apply List.filter_congr
    intro p hp
    have h2 := sort_pair_snd f rs p hp
    simp [Function.comp, h2]
  rw [hcongr, insertionSort_filter]
  have hmapfil : (rs.map (fun r => (r, f r))).filter (fun p => p.2 == s)
      = (rs.filter (fun r => f r == s)).map (fun r => (r, f r)) := by
    rw [List.filter_map]
    rfl
  rw [hmapfil, List.map_map]
  exact List.map_id _

/-- Claim C2 (amended): when the scoring queries succeed, selection
sorts candidates by ascending store score with a stable sort and takes
the last N: the result holds the N highest-scoring recipes (no
unselected candidate scores higher than any selected one) in descending
score order; when N exceeds the candidate count all candidates are
returned as a permutation of the input in that descending order, with
tied candidates in reverse of their original order, never failing for
under-supply. -/
theorem claim_C2_selection (db : Db) (rs : List Recipe) (n : Nat) (out : List Recipe)
    (h : get_matching_recipes db rs n = Except.ok out) :
    out.length = min n rs.length
    ∧ (rs.length ≤ n → out.Perm rs)
    ∧ out.Pairwise (fun a b => dbScore db b.id ≤ dbScore db a.id)
    ∧ (∀ x ∈ out, ∀ y ∈ rs, y ∉ out → dbScore db y.id ≤ dbScore db x.id)
    ∧ (rs.length ≤ n → ∀ s : Int, out.filter (fun r => dbScore db r.id == s)
        = (rs.filter (fun r => dbScore db r.id == s)).reverse) := by
  have hout := get_matching_ok db rs n out h
  subst hout
  exact ⟨selectTop_length _ rs n, fun hle => selectTop_perm _ rs n hle, selectTop_sorted _ rs n,
    selectTop_topN _ rs n, fun hle s => selectTop_ties _ rs n hle s⟩

/-- Witness for claim C2: under-supply on one candidate returns it, and
two tied candidates come back in reverse input order. -/
theorem claim_C2_selection_witness :
    [(⟨"a", 1, "a", [], []⟩ : Recipe)].Perm [⟨"a", 1, "a", [], []⟩]
    ∧ [(⟨"b", 2, "b", [], []⟩ : Recipe), ⟨"a", 1, "a", [], []⟩].filter
        (fun r => dbScore ⟨Mode.Prepare, 0, [], [], [], []⟩ r.id == 0)
      = ([(⟨"a", 1, "a", [], []⟩ : Recipe), ⟨"b", 2, "b", [], []⟩].filter
        (fun r => dbScore ⟨Mode.Prepare, 0, [], [], [], []⟩ r.id == 0)).reverse :=
  ⟨(claim_C2_selection ⟨Mode.Prepare, 0, [], [], [], []⟩ [⟨"a", 1, "a", [], []⟩] 2
      [⟨"a", 1, "a", [], []⟩] (by with_unfolding_all rfl)).2.1 (by decide),
   (claim_C2_selection ⟨Mode.Prepare, 0, [], [], [], []⟩
      [⟨"a", 1, "a", [], []⟩, ⟨"b", 2, "b", [], []⟩] 3
      [⟨"b", 2, "b", [], []⟩, ⟨"a", 1, "a", [], []⟩] (by with_unfolding_all rfl)).2.2.2.2
      (by decide) 0⟩

/-- Counterexample to claim C2 as stated: two tied candidates requested
with N larger than the candidate count come back reversed, not unchanged
in relative order. -/
theorem claim_C2_counterexample :
    get_matching_recipes ⟨Mode.Prepare, 0, [], [], [], []⟩
        [⟨"a", 1, "a", [], []⟩, ⟨"b", 2, "b", [], []⟩] 3
      = Except.ok [⟨"b", 2, "b", [], []⟩, ⟨"a", 1, "a", [], []⟩]
    ∧ ([(⟨"b", 2, "b", [], []⟩ : Recipe), ⟨"a", 1, "a", [], []⟩]
        ≠ [⟨"a", 1, "a", [], []⟩, ⟨"b", 2, "b", [], []⟩]) :=
  ⟨by with_unfolding_all rfl, of_decide_eq_true (by with_unfolding_all rfl)⟩
theorem store_rel_fields (rid tid : Int) (db : Db) :
    (store_recipe_tag_relationship rid tid db).offset = db.offset
    ∧ (store_recipe_tag_relationship rid tid db).mode = db.mode
    ∧ (store_recipe_tag_relationship rid tid db).previousRecipes = db.previousRecipes := by
  unfold store_recipe_tag_relationship store_tag
  split <;> exact ⟨rfl, rfl, rfl⟩

theorem foldl_store_rel_fields (rid : Int) (tags : List Tag) (db : Db) :
    (tags.foldl (fun d t => store_recipe_tag_relationship rid t.id d) db).offset = db.offset
    ∧ (tags.foldl (fun d t => store_recipe_tag_relationship rid t.id d) db).mode = db.mode
    ∧ (tags.foldl (fun d t => store_recipe_tag_relationship rid t.id d) db).previousRecipes
        = db.previousRecipes := by
  induction tags generalizing db with
  | nil => exact ⟨rfl, rfl, rfl⟩
  | cons t rest ih =>
    simp only [List.foldl_cons]
    have h1 := store_rel_fields rid t.id db
    have h2 := ih (store_recipe_tag_relationship rid t.id db)
    exact ⟨h2.1.trans h1.1, h2.2.1.trans h1.2.1, h2.2.2.trans h1.2.2⟩

theorem store_recipe_fields (r : Recipe) (db : Db) :
    (store_recipe r db).offset = db.offset
    ∧ (store_recipe r db).mode = db.mode
    ∧ (store_recipe r db).previousRecipes = db.previousRecipes := by
  unfold store_recipe
  split
  · exact foldl_store_rel_fields r.id r.tags db
  · exact foldl_store_rel_fields r.id r.tags _

theorem foldl_store_prev (sel : List Recipe) (db : Db) :
    (sel.foldl (fun d r => store_previous_recipe r (store_recipe r d)) db).offset = db.offset
    ∧ (sel.foldl (fun d r => store_previous_recipe r (store_recipe r d)) db).mode = db.mode
    ∧ (sel.foldl (fun d r => store_previous_recipe r (store_recipe r d)) db).previousRecipes
        = db.previousRecipes ++ sel.map (fun r => r.id) := by
  induction sel generalizing db with
  | nil => exact ⟨rfl, rfl, by simp⟩
  | cons r rest ih =>
    simp only [List.foldl_cons, List.map_cons]
    have hsr := store_recipe_fields r db
    have ih2 := ih (store_previous_recipe r (store_recipe r db))
    refine ⟨ih2.1.trans hsr.1, ih2.2.1.trans hsr.2.1, ?_⟩
    rw [ih2.2.2]
    rw [show (store_previous_recipe r (store_recipe r db)).previousRecipes
        = (store_recipe r db).previousRecipes ++ [r.id] from rfl, hsr.2.2]
    simp

theorem combineAux_ok : ∀ (rest combined : List Component) (ids : List Int),
    ∃ out, combineAux rest combined ids = Except.ok out := by
  intro rest
  induction rest with
  | nil => intro combined ids; exact ⟨combined, rfl⟩
  | cons c rest ih =>
    intro combined ids
    by_cases hmem : c.ingredient.id ∈ ids
    · rcases insertComponent_ok combined c with ⟨r, hr, -⟩
      rcases ih r ids with ⟨out, hout⟩
      refine ⟨out, ?_⟩
      simp only [combineAux]
      rw [if_pos hmem, hr]
      exact hout
    · rcases ih (combined ++ [c]) (ids ++ [c.ingredient.id]) with ⟨out, hout⟩
      refine ⟨out, ?_⟩
      simp only [combineAux]
      rw [if_neg hmem]
      exact hout

theorem make_shopping_list_ok (cs : List Component) :
    ∃ s, make_shopping_list cs = Except.ok s := by
  rcases combineAux_ok cs [] [] with ⟨out, hout⟩
  refine ⟨String.intercalate "\n" (shoppingLines out), ?_⟩
  unfold make_shopping_list combineComponents
  rw [hout]

/-- Claim C3: a successful Gather phase run started in Gather with
empty PendingBatch and at least N candidates after dedup advances the
offset by exactly N (not by the page size), fills previous_recipes with
exactly the N selected recipe ids in order, and switches the mode to
Review. -/
theorem claim_C3_gather_phase (db : Db) (fetched : List Recipe) (n : Nat) (sel : List Recipe)
    (_hmode : db.mode = Mode.Prepare) (hprev : db.previousRecipes = [])
    (hsel : get_matching_recipes db (remove_duplicate_recipes db fetched) n = Except.ok sel)
    (hn : n ≤ (remove_duplicate_recipes db fetched).length) :
    ∃ out, prepare db fetched n = Except.ok out
      ∧ out.1.offset = db.offset + n
      ∧ out.1.mode = Mode.Review
      ∧ out.1.previousRecipes = sel.map (fun r => r.id)
      ∧ out.1.previousRecipes.length = n := by
  rcases make_shopping_list_ok (get_components sel) with ⟨s, hs⟩
  have hfold := foldl_store_prev sel db
  have hprevlist : (sel.foldl (fun d r => store_previous_recipe r (store_recipe r d)) db).previousRecipes
      = sel.map (fun r => r.id) := by
    rw [hfold.2.2, hprev]
    simp
  have hlen : sel.length = n := by
    have hsel2 := get_matching_ok db (remove_duplicate_recipes db fetched) n sel hsel
    rw [hsel2, selectTop_length]
    exact Nat.min_eq_left hn
  unfold prepare
  simp only [hsel, hs]
  refine ⟨_, rfl, ?_, rfl, ?_, ?_⟩
  · exact congrArg (fun x : Int => x + n) hfold.1
  · exact hprevlist
  · rw [show (set_mode Mode.Review (increment_offset n
        (sel.foldl (fun d r => store_previous_recipe r (store_recipe r d)) db))).previousRecipes
        = (sel.foldl (fun d r => store_previous_recipe r (store_recipe r d)) db).previousRecipes from rfl]
    rw [hprevlist, List.length_map]
    exact hlen

/-- Witness for claim C3: a fresh installation gathering three recipes;
all scores are 0 so the code selects the three candidates reversed. -/
theorem claim_C3_gather_phase_witness :
    ∃ out, prepare ⟨Mode.Prepare, 0, [], [], [], []⟩
        [⟨"a", 1, "a", [], []⟩, ⟨"b", 2, "b", [], []⟩, ⟨"c", 3, "c", [], []⟩] 3 = Except.ok out
      ∧ out.1.offset = (⟨Mode.Prepare, 0, [], [], [], []⟩ : Db).offset + 3
      ∧ out.1.mode = Mode.Review
      ∧ out.1.previousRecipes
          = [(⟨"c", 3, "c", [], []⟩ : Recipe), ⟨"b", 2, "b", [], []⟩, ⟨"a", 1, "a", [], []⟩].map (fun r => r.id)
      ∧ out.1.previousRecipes.length = 3 :=
  claim_C3_gather_phase ⟨Mode.Prepare, 0, [], [], [], []⟩
    [⟨"a", 1, "a", [], []⟩, ⟨"b", 2, "b", [], []⟩, ⟨"c", 3, "c", [], []⟩] 3
    [⟨"c", 3, "c", [], []⟩, ⟨"b", 2, "b", [], []⟩, ⟨"a", 1, "a", [], []⟩]
    rfl rfl (by with_unfolding_all rfl) (of_decide_eq_true (by with_unfolding_all rfl))


end MealPlanner
